import Mathlib

/-!
Verification of the RAD-seq library-preparation simulation functions from
nb-13.1-RAD-seq.ipynb.  Strings are modelled as `List Char`; Python's
`str.split` (which raises on an empty separator) is modelled by returning
`Option`; every other helper is a total translation of the source.
-/

namespace RadSeq

/-- The TruSeq Illumina adapter 1 constant from the notebook. -/
def ILLUMINA_ADAPTER_1 : List Char := "AGATCGGAAGAGCACACGTCTGAACTCCAGTCA".toList

/-- The TruSeq Illumina adapter 2 constant from the notebook. -/
def ILLUMINA_ADAPTER_2 : List Char := "AGATCGGAAGAGCGTCGTGTAGGGAAAGAGTGT".toList

/-- Python `s.replace(a, b)` for a single-character pattern: a characterwise map. -/
def pyReplace (a b : Char) (s : List Char) : List Char :=
  s.map fun c => if c = a then b else c

/-- `complement` from the notebook:
`sequence.replace("C","g").replace("G","c").replace("T","a").replace("A","t").upper()`. -/
def complement (s : List Char) : List Char :=
  (pyReplace 'A' 't' (pyReplace 'T' 'a' (pyReplace 'G' 'c' (pyReplace 'C' 'g' s)))).map
    Char.toUpper

/-- The reverse complement idiom `complement(x)[::-1]` used throughout the notebook. -/
def revcomp (s : List Char) : List Char := (complement s).reverse

/-- Python slice index resolution: negative indices count from the end,
out-of-range indices are clamped. -/
def pyIdx (len : Nat) (i : Int) : Nat :=
  if i < 0 then (i + len).toNat else min i.toNat len

/-- Python slice `s[a:b]` with int endpoints (step 1). -/
def pySlice (s : List Char) (a b : Int) : List Char :=
  let i := pyIdx s.length a
  let j := pyIdx s.length b
  (s.drop i).take (j - i)

/-- Finds the leftmost occurrence of `sep` in `s`; returns the part before it and
the part after it.  This is the scanning step of Python `str.split`. -/
def splitFirst (sep : List Char) : List Char → Option (List Char × List Char)
  | [] => none
  | c :: rest =>
      if (c :: rest).take sep.length = sep then
        some ([], (c :: rest).drop sep.length)
      else
        match splitFirst sep rest with
        | none => none
        | some (pre, post) => some (c :: pre, post)

/-- Fuelled worker for Python `str.split`: repeatedly cut at the leftmost
occurrence of `sep`.  Each cut removes at least one character when `sep` is
nonempty, so fuel `s.length` always suffices. -/
def pySplitF (sep : List Char) : Nat → List Char → List (List Char)
  | 0, s => [s]
  | fuel + 1, s =>
      match splitFirst sep s with
      | none => [s]
      | some (pre, post) => pre :: pySplitF sep fuel post

/-- Python `s.split(sep)` for a nonempty separator. -/
def pySplit (sep s : List Char) : List (List Char) := pySplitF sep s.length s

/-- Fuelled count of the non-overlapping occurrences of `sep` in `s`, scanned
left to right (the occurrences that `str.split` cuts at). -/
def countOccF (sep : List Char) : Nat → List Char → Nat
  | 0, _ => 0
  | fuel + 1, s =>
      match splitFirst sep s with
      | none => 0
      | some (_, post) => countOccF sep fuel post + 1

/-- Number of non-overlapping occurrences of `sep` in `s`, scanned left to right. -/
def countOcc (sep s : List Char) : Nat := countOccF sep s.length s

/-- `restriction_digest` from the notebook.  Python `str.split` raises
`ValueError` on an empty separator, modelled here as `none`. -/
def restriction_digest (sequence recognition : List Char) (cut : Nat) :
    Option (List (List Char)) :=
  if recognition = [] then none
  else
    some ((pySplit recognition sequence).map fun piece =>
      recognition.drop cut ++ piece ++ recognition.take cut)

/-- `ligate_barcoded_adapters` from the notebook.  The molecule is
`complement(ILLUMINA_ADAPTER_1)[::-1] + complement(barcode)[::-1] +
recognition[-cut:-(len(recognition)-cut)] + fragment + barcode + ILLUMINA_ADAPTER_1`. -/
def ligate_barcoded_adapters (fragments : List (List Char)) (recognition : List Char)
    (cut : Nat) (barcode : List Char) : List (List Char) :=
  fragments.map fun fragment =>
    (revcomp ILLUMINA_ADAPTER_1 ++ revcomp barcode ++
        pySlice recognition (-(cut : Int)) (-((recognition.length : Int) - (cut : Int))))
      ++ fragment ++ (barcode ++ ILLUMINA_ADAPTER_1)

/-- `np.linspace(0, L, n).astype(int)` modelled with exact integer arithmetic:
`n` evenly spaced points from `0` to `L` inclusive, truncated to integers. -/
def linspaceInt (L n : Nat) : List Nat :=
  (List.range n).map fun i => i * L / (n - 1)

/-- The inner loop of `shear_DNA_to_size_select`: slice `fragment[idx:end]` for
each breakpoint `end`, advancing `idx`. -/
def sliceChunks (fragment : List Char) : Nat → List Nat → List (List Char)
  | _, [] => []
  | idx, e :: rest => (fragment.drop idx).take (e - idx) :: sliceChunks fragment e rest

/-- One iteration of the outer loop of `shear_DNA_to_size_select`:
`nfrags = max(2, int(len(fragment)/size))`, breakpoints from `linspace`, then
slice between consecutive breakpoints (the loop runs over `splits[1:]`). -/
def shearFrag (fragment : List Char) (size : Nat) : List (List Char) :=
  sliceChunks fragment 0
    ((linspaceInt fragment.length (max 2 (fragment.length / size))).drop 1)

/-- `shear_DNA_to_size_select` from the notebook. -/
def shear_DNA_to_size_select (fragments : List (List Char)) (size : Nat) :
    List (List Char) :=
  (fragments.map fun fragment => shearFrag fragment size).flatten

/-- The `"AAAAAAAAAAAAAA"` poly-A string constant from the notebook. -/
def polyA : List Char := "AAAAAAAAAAAAAA".toList

/-- `end_repair_and_adapter_ligation` from the notebook. -/
def end_repair_and_adapter_ligation (fragments : List (List Char)) : List (List Char) :=
  fragments.map fun frag =>
    let frag1 :=
      if frag.take 33 ≠ revcomp ILLUMINA_ADAPTER_1 then
        revcomp ILLUMINA_ADAPTER_2 ++ complement polyA ++ frag
      else frag
    if frag1.drop (frag1.length - 33) ≠ ILLUMINA_ADAPTER_1 then
      frag1 ++ polyA ++ ILLUMINA_ADAPTER_2
    else frag1

/-- `PCR` from the notebook: keep `adapter1...adapter2` oligos verbatim and
`adapter2...adapter1` oligos reverse-complemented. -/
def PCR (fragments : List (List Char)) : List (List Char) :=
  (fragments.map fun fragment =>
    (if fragment.take 33 = revcomp ILLUMINA_ADAPTER_1 then
        if fragment.drop (fragment.length - 33) = ILLUMINA_ADAPTER_2 then [fragment]
        else []
      else [])
    ++
    (if fragment.take 33 = revcomp ILLUMINA_ADAPTER_2 then
        if fragment.drop (fragment.length - 33) = ILLUMINA_ADAPTER_1 then
          [revcomp fragment]
        else []
      else [])).flatten

/-- Spec-side selector for `PCR`: the per-fragment contribution described by the
claim, with the two adapter tests written as conjunctions. -/
def pcrSelect (fragment : List Char) : List (List Char) :=
  (if fragment.take 33 = revcomp ILLUMINA_ADAPTER_1 ∧
      fragment.drop (fragment.length - 33) = ILLUMINA_ADAPTER_2 then [fragment]
   else [])
  ++
  (if fragment.take 33 = revcomp ILLUMINA_ADAPTER_2 ∧
      fragment.drop (fragment.length - 33) = ILLUMINA_ADAPTER_1 then [revcomp fragment]
   else [])

/-- The list `list("ACGT")` that `random_sequence` draws from. -/
def ACGT_CHARS : List Char := ['A', 'C', 'G', 'T']

/-- `random_sequence` from the notebook, with the outcome of the `N` random
draws of `np.random.choice` supplied as an explicit function `draws`. -/
def random_sequence (draws : Nat → Fin 4) (N : Nat) : List Char :=
  (List.range N).map fun i => ACGT_CHARS.get ⟨(draws i).val, (draws i).isLt⟩

/-- Spec-side characterwise DNA complement: A↔T, C↔G. -/
def dnaComplement (c : Char) : Char :=
  if c = 'A' then 'T'
  else if c = 'T' then 'A'
  else if c = 'C' then 'G'
  else if c = 'G' then 'C'
  else c

/-- Spec-side Python string join with separator `sep`. -/
def pyJoin (sep : List Char) : List (List Char) → List Char
  | [] => []
  | [x] => x
  | x :: y :: rest => x ++ sep ++ pyJoin sep (y :: rest)

/-! ### Helper lemmas about list slicing -/

theorem take_of_append (x y : List Char) (n : Nat) (h : x.length = n) :
    (x ++ y).take n = x := by
  subst h; exact List.take_left x y

theorem drop_of_append (x y : List Char) (n : Nat) (h : x.length = n) :
    (x ++ y).drop n = y := by
  subst h; exact List.drop_left x y

theorem drop_tail_of_append (x y : List Char) (k : Nat) (h : y.length = k) :
    (x ++ y).drop ((x ++ y).length - k) = y := by
  have hlen : (x ++ y).length - k = x.length := by
    simp [List.length_append, h]
  rw [hlen]; exact List.drop_left x y

/-! ### Lemmas about the model of Python `str.split` -/

theorem splitFirst_spec (sep : List Char) :
    ∀ s pre post : List Char, splitFirst sep s = some (pre, post) →
      s = pre ++ sep ++ post := by
  intro s
  induction s with
  | nil => intro pre post h; simp [splitFirst] at h
  | cons c rest ih =>
      intro pre post h
      rw [splitFirst] at h
      by_cases hp : (c :: rest).take sep.length = sep
      · rw [if_pos hp] at h
        obtain ⟨rfl, rfl⟩ := Prod.mk.injEq .. ▸ Option.some.injEq .. ▸ h
        have := List.take_append_drop sep.length (c :: rest)
        calc c :: rest = (c :: rest).take sep.length ++ (c :: rest).drop sep.length :=
              this.symm
          _ = [] ++ sep ++ (c :: rest).drop sep.length := by rw [hp]; rfl
      · rw [if_neg hp] at h
        cases hsf : splitFirst sep rest with
        | none => rw [hsf] at h; cases h
        | some pr =>
            obtain ⟨pre', post'⟩ := pr
            rw [hsf] at h
            obtain ⟨rfl, rfl⟩ := Prod.mk.injEq .. ▸ Option.some.injEq .. ▸ h
            have := ih pre' post' hsf
            simp [this]

theorem splitFirst_length (sep : List Char) (s pre post : List Char)
    (h : splitFirst sep s = some (pre, post)) :
    post.length + sep.length ≤ s.length := by
  have := splitFirst_spec sep s pre post h
  subst this
  simp [List.length_append]
  omega

theorem pySplitF_of_none (sep : List Char) (fuel : Nat) (s : List Char)
    (h : splitFirst sep s = none) : pySplitF sep fuel s = [s] := by
  cases fuel with
  | zero => rfl
  | succ fuel => rw [pySplitF, h]

theorem pySplitF_ne_nil (sep : List Char) (fuel : Nat) (s : List Char) :
    pySplitF sep fuel s ≠ [] := by
  cases fuel with
  | zero => simp [pySplitF]
  | succ fuel =>
      rw [pySplitF]
      cases h : splitFirst sep s with
      | none => simp
      | some pr => obtain ⟨pre, post⟩ := pr; simp

theorem pySplitF_length_eq_countOccF (sep : List Char) (hsep : sep ≠ []) :
    ∀ (fuel : Nat) (s : List Char), s.length ≤ fuel →
      (pySplitF sep fuel s).length = countOccF sep fuel s + 1 := by
  intro fuel
  induction fuel with
  | zero => intro s _; rfl
  | succ fuel ih =>
      intro s hs
      rw [pySplitF, countOccF]
      cases h : splitFirst sep s with
      | none => rfl
      | some pr =>
          obtain ⟨pre, post⟩ := pr
          have hlen := splitFirst_length sep s pre post h
          have hsep1 : 1 ≤ sep.length := by
            cases sep with
            | nil => exact absurd rfl hsep
            | cons a tl => simp
          have hpost : post.length ≤ fuel := by omega
          simp [ih post hpost]

theorem pyJoin_pySplitF (sep : List Char) (hsep : sep ≠ []) :
    ∀ (fuel : Nat) (s : List Char), s.length ≤ fuel →
      pyJoin sep (pySplitF sep fuel s) = s := by
  intro fuel
  induction fuel with
  | zero =>
      intro s hs
      have : s = [] := List.length_eq_zero.mp (Nat.le_zero.mp hs)
      subst this; rfl
  | succ fuel ih =>
      intro s hs
      rw [pySplitF]
      cases h : splitFirst sep s with
      | none => rfl
      | some pr =>
          obtain ⟨pre, post⟩ := pr
          have hlen := splitFirst_length sep s pre post h
          have hsep1 : 1 ≤ sep.length := by
            cases sep with
            | nil => exact absurd rfl hsep
            | cons a tl => simp
          have hpost : post.length ≤ fuel := by omega
          show pyJoin sep (pre :: pySplitF sep fuel post) = s
          cases hps : pySplitF sep fuel post with
          | nil => exact absurd hps (pySplitF_ne_nil sep fuel post)
          | cons y ys =>
              have hjoin : pyJoin sep (y :: ys) = post := by
                rw [← hps]; exact ih post hpost
              have hstep : pyJoin sep (pre :: y :: ys) = pre ++ sep ++ pyJoin sep (y :: ys) :=
                rfl
              rw [hstep, hjoin]
              exact (splitFirst_spec sep s pre post h).symm

/-! ### Lemmas about `complement` and `revcomp` -/

theorem complement_length (s : List Char) : (complement s).length = s.length := by
  simp [complement, pyReplace]

theorem complement_append (x y : List Char) :
    complement (x ++ y) = complement x ++ complement y := by
  simp [complement, pyReplace]

theorem complement_reverse (s : List Char) :
    complement s.reverse = (complement s).reverse := by
  simp [complement, pyReplace, List.map_reverse]

theorem revcomp_length (s : List Char) : (revcomp s).length = s.length := by
  simp [revcomp, complement_length]

theorem revcomp_append (x y : List Char) :
    revcomp (x ++ y) = revcomp y ++ revcomp x := by
  simp [revcomp, complement_append]

theorem complement_eq_map_dna :
    ∀ s : List Char, (∀ c ∈ s, c ∈ ACGT_CHARS) → complement s = s.map dnaComplement := by
  intro s
  induction s with
  | nil => intro _; rfl
  | cons c rest ih =>
      intro h
      have hc : c ∈ ACGT_CHARS := h c (List.mem_cons_self c rest)
      have htail := ih fun x hx => h x (List.mem_cons_of_mem c hx)
      have hhead : complement (c :: rest) = complement [c] ++ complement rest := by
        simp [complement, pyReplace]
      rw [hhead, htail]
      fin_cases hc <;> rfl

theorem dnaComplement_mem (c : Char) (h : c ∈ ACGT_CHARS) :
    dnaComplement c ∈ ACGT_CHARS := by
  fin_cases h <;> decide

theorem dnaComplement_invol (c : Char) (h : c ∈ ACGT_CHARS) :
    dnaComplement (dnaComplement c) = c := by
  fin_cases h <;> decide

/-! ### Lemmas about `shear_DNA_to_size_select` -/

theorem slice_chain (f : List Char) (a b c : Nat) (hab : a ≤ b) (hbc : b ≤ c) :
    (f.drop a).take (b - a) ++ (f.drop b).take (c - b) = (f.drop a).take (c - a) := by
  have h1 : c - a = (b - a) + (c - b) := by omega
  have h2 : a + (b - a) = b := by omega
  rw [h1, List.take_add, List.drop_drop, h2]

theorem pairwise_le_getLastD :
    ∀ (es : List Nat) (idx : Nat), List.Pairwise (· ≤ ·) (idx :: es) →
      idx ≤ es.getLastD idx := by
  intro es
  induction es with
  | nil => intro idx _; simp
  | cons e rest ih =>
      intro idx h
      obtain ⟨hhead, htail⟩ := List.pairwise_cons.mp h
      have h1 : idx ≤ e := hhead e (List.mem_cons_self e rest)
      have h3 := ih e htail
      rw [List.getLastD_cons]
      omega

theorem sliceChunks_flatten (f : List Char) :
    ∀ (es : List Nat) (idx : Nat), List.Pairwise (· ≤ ·) (idx :: es) →
      (sliceChunks f idx es).flatten = (f.drop idx).take (es.getLastD idx - idx) := by
  intro es
  induction es with
  | nil => intro idx _; simp [sliceChunks]
  | cons e rest ih =>
      intro idx h
      obtain ⟨hhead, htail⟩ := List.pairwise_cons.mp h
      have hie : idx ≤ e := hhead e (List.mem_cons_self e rest)
      have hel : e ≤ rest.getLastD e := pairwise_le_getLastD rest e htail
      show ((f.drop idx).take (e - idx) :: sliceChunks f e rest).flatten = _
      rw [List.flatten_cons, ih e htail, List.getLastD_cons]
      exact slice_chain f idx e (rest.getLastD e) hie hel

theorem sliceChunks_length (f : List Char) :
    ∀ (es : List Nat) (idx : Nat), (sliceChunks f idx es).length = es.length := by
  intro es
  induction es with
  | nil => intro idx; rfl
  | cons e rest ih =>
      intro idx
      show ((f.drop idx).take (e - idx) :: sliceChunks f e rest).length = _
      simp [ih e]

theorem linspaceInt_length (L n : Nat) : (linspaceInt L n).length = n := by
  simp [linspaceInt]

theorem linspaceInt_sorted (L n : Nat) :
    List.Pairwise (· ≤ ·) (linspaceInt L n) := by
  unfold linspaceInt
  rw [List.pairwise_map]
  exact (List.pairwise_lt_range n).imp fun h =>
    Nat.div_le_div_right (Nat.mul_le_mul_right L (Nat.le_of_lt h))

theorem linspaceInt_cons (L m : Nat) :
    linspaceInt L (m + 2) =
      0 :: (List.range (m + 1)).map fun i => (i + 1) * L / (m + 1) := by
  unfold linspaceInt
  have h2 : m + 2 = (m + 1) + 1 := rfl
  rw [h2, List.range_succ_eq_map, List.map_cons, List.map_map]
  congr 1
  simp

theorem linspaceInt_getLastD (L m : Nat) :
    ((linspaceInt L (m + 2)).drop 1).getLastD 0 = L := by
  rw [linspaceInt_cons]
  show ((List.range (m + 1)).map fun i => (i + 1) * L / (m + 1)).getLastD 0 = L
  rw [List.range_succ, List.map_append, List.map_singleton, List.getLastD_concat]
  show (m + 1) * L / (m + 1) = L
  exact Nat.mul_div_cancel_left L (Nat.succ_pos m)

theorem shearFrag_flatten (f : List Char) (size : Nat) :
    (shearFrag f size).flatten = f ∧ shearFrag f size ≠ [] := by
  obtain ⟨m, hm⟩ : ∃ m, max 2 (f.length / size) = m + 2 :=
    ⟨max 2 (f.length / size) - 2, by
      have := Nat.le_max_left 2 (f.length / size); omega⟩
  unfold shearFrag
  rw [hm]
  have hcons := linspaceInt_cons f.length m
  constructor
  · have hsorted : List.Pairwise (· ≤ ·)
        (0 :: (linspaceInt f.length (m + 2)).drop 1) := by
      have hall := linspaceInt_sorted f.length (m + 2)
      rw [hcons] at hall ⊢
      simpa using hall
    have hj := sliceChunks_flatten f ((linspaceInt f.length (m + 2)).drop 1) 0 hsorted
    rw [hj, linspaceInt_getLastD]
    simp
  · have hlen : ((linspaceInt f.length (m + 2)).drop 1).length = m + 1 := by
      simp [linspaceInt_length]
    cases hes : (linspaceInt f.length (m + 2)).drop 1 with
    | nil => rw [hes] at hlen; simp at hlen
    | cons e rest => simp [sliceChunks]

/-! ### Claim theorems -/

/-- C7: for every outcome of the underlying random draws and every `N`,
`random_sequence N` returns a string of length exactly `N` in which every
character is one of A, C, G, T. -/
theorem random_sequence_spec (draws : Nat → Fin 4) (N : Nat) :
    (random_sequence draws N).length = N ∧
      ∀ c ∈ random_sequence draws N, c ∈ ACGT_CHARS := by
  constructor
  · simp [random_sequence]
  · intro c hc
    obtain ⟨i, _, rfl⟩ := List.mem_map.mp hc
    exact List.get_mem _ _ _

theorem random_sequence_spec_witness :
    (random_sequence (fun _ => 0) 5).length = 5 ∧ 'A' ∈ ACGT_CHARS :=
  ⟨(random_sequence_spec (fun _ => 0) 5).1,
   (random_sequence_spec (fun _ => 0) 5).2 'A' (by decide)⟩

/-- C8: on strings over the alphabet ACGT, `complement` is the characterwise map
A↔T, C↔G and an involution, and the reverse complement `complement(s)[::-1]`
is an involution as well. -/
theorem complement_involution (s : List Char) (h : ∀ c ∈ s, c ∈ ACGT_CHARS) :
    complement s = s.map dnaComplement
    ∧ complement (complement s) = s
    ∧ revcomp (revcomp s) = s := by
  have h1 := complement_eq_map_dna s h
  have hmem : ∀ c ∈ complement s, c ∈ ACGT_CHARS := by
    rw [h1]
    intro c hc
    obtain ⟨a, ha, rfl⟩ := List.mem_map.mp hc
    exact dnaComplement_mem a (h a ha)
  have h2 : complement (complement s) = s := by
    rw [complement_eq_map_dna _ hmem, h1, List.map_map]
    have hid : ∀ c ∈ s, (dnaComplement ∘ dnaComplement) c = id c := fun c hc =>
      dnaComplement_invol c (h c hc)
    calc s.map (dnaComplement ∘ dnaComplement) = s.map id := List.map_eq_map_iff.mpr hid
      _ = s := List.map_id s
  refine ⟨h1, h2, ?_⟩
  show (complement ((complement s).reverse)).reverse = s
  rw [complement_reverse, List.reverse_reverse, h2]

theorem complement_involution_witness :
    complement "ACGT".toList = "ACGT".toList.map dnaComplement
    ∧ complement (complement "ACGT".toList) = "ACGT".toList
    ∧ revcomp (revcomp "ACGT".toList) = "ACGT".toList :=
  complement_involution "ACGT".toList (by decide)

/-- C5: the six simulation functions are deterministic: any two calls with equal
arguments return equal results (in this embedding, which threads no state,
because the source functions consult none — `shear_DNA_to_size_select` computes
its breakpoints with the deterministic `np.linspace`, not with randomness). -/
theorem simulation_functions_deterministic
    (seq seq' rcg rcg' bc bc' : List Char) (cut cut' size size' : Nat)
    (frs frs' : List (List Char))
    (h1 : seq = seq') (h2 : rcg = rcg') (h3 : cut = cut') (h4 : bc = bc')
    (h5 : size = size') (h6 : frs = frs') :
    restriction_digest seq rcg cut = restriction_digest seq' rcg' cut'
    ∧ complement seq = complement seq'
    ∧ ligate_barcoded_adapters frs rcg cut bc = ligate_barcoded_adapters frs' rcg' cut' bc'
    ∧ shear_DNA_to_size_select frs size = shear_DNA_to_size_select frs' size'
    ∧ end_repair_and_adapter_ligation frs = end_repair_and_adapter_ligation frs'
    ∧ PCR frs = PCR frs' := by
  subst h1 h2 h3 h4 h5 h6
  exact ⟨rfl, rfl, rfl, rfl, rfl, rfl⟩

theorem simulation_functions_deterministic_witness :
    restriction_digest ['A'] ['C'] 0 = restriction_digest ['A'] ['C'] 0
    ∧ complement ['A'] = complement ['A']
    ∧ ligate_barcoded_adapters [] ['C'] 0 [] = ligate_barcoded_adapters [] ['C'] 0 []
    ∧ shear_DNA_to_size_select [] 1 = shear_DNA_to_size_select [] 1
    ∧ end_repair_and_adapter_ligation [] = end_repair_and_adapter_ligation []
    ∧ PCR [] = PCR [] :=
  simulation_functions_deterministic ['A'] ['A'] ['C'] ['C'] [] [] 0 0 1 1 [] []
    rfl rfl rfl rfl rfl rfl

/-- C6 counterexample: with an empty recognition string, `restriction_digest`
does not return a value — Python `str.split` raises `ValueError` on an empty
separator, modelled here as `none`. -/
theorem restriction_digest_empty_recognition_none :
    restriction_digest ['A'] [] 0 = none := rfl

/-- C6 amended: `restriction_digest` returns a value for every input with a
nonempty recognition string (and the remaining five functions are total by
construction); only the empty recognition string makes a call raise. -/
theorem restriction_digest_total_of_nonempty (sequence recognition : List Char)
    (cut : Nat) (h : recognition ≠ []) :
    (restriction_digest sequence recognition cut).isSome = true := by
  simp [restriction_digest, h]

theorem restriction_digest_total_of_nonempty_witness :
    (restriction_digest ['A'] ['C'] 0).isSome = true :=
  restriction_digest_total_of_nonempty ['A'] ['C'] 0 (by decide)

/-- C3: for nonempty recognition and `cut ≤ length recognition`,
`restriction_digest` returns exactly `k + 1` fragments where `k` is the number
of non-overlapping occurrences of the recognition site scanned left to right;
a one-element list when the site does not occur; and each fragment is
`recognition[cut:] ++ piece ++ recognition[:cut]` for the corresponding split
piece. -/
theorem restriction_digest_fragment_count (sequence recognition : List Char) (cut : Nat)
    (frags : List (List Char))
    (hrec : recognition ≠ []) (_hcut : cut ≤ recognition.length)
    (hdig : restriction_digest sequence recognition cut = some frags) :
    frags.length = countOcc recognition sequence + 1
    ∧ ((¬ ∃ pre post, sequence = pre ++ recognition ++ post) → frags.length = 1)
    ∧ frags = (pySplit recognition sequence).map
        (fun piece => recognition.drop cut ++ piece ++ recognition.take cut) := by
  have hfr : frags = (pySplit recognition sequence).map
      (fun piece => recognition.drop cut ++ piece ++ recognition.take cut) := by
    rw [restriction_digest, if_neg hrec] at hdig
    exact (Option.some.inj hdig).symm
  refine ⟨?_, ?_, hfr⟩
  · rw [hfr, List.length_map]
    exact pySplitF_length_eq_countOccF recognition hrec sequence.length sequence le_rfl
  · intro hno
    have hnone : splitFirst recognition sequence = none := by
      cases hsf : splitFirst recognition sequence with
      | none => rfl
      | some pr =>
          obtain ⟨pre, post⟩ := pr
          exact absurd ⟨pre, post, splitFirst_spec recognition sequence pre post hsf⟩ hno
    rw [hfr, List.length_map]
    rw [show pySplit recognition sequence = [sequence] from
      pySplitF_of_none recognition sequence.length sequence hnone]
    rfl

theorem restriction_digest_fragment_count_witness :
    (["GAACTGCA".toList, "GTTCTGCA".toList] : List (List Char)).length
        = countOcc "CTGCAG".toList "AACTGCAGTT".toList + 1
    ∧ ((¬ ∃ pre post, "AACTGCAGTT".toList = pre ++ "CTGCAG".toList ++ post) →
        (["GAACTGCA".toList, "GTTCTGCA".toList] : List (List Char)).length = 1)
    ∧ ["GAACTGCA".toList, "GTTCTGCA".toList]
        = (pySplit "CTGCAG".toList "AACTGCAGTT".toList).map
            (fun piece => "CTGCAG".toList.drop 5 ++ piece ++ "CTGCAG".toList.take 5) :=
  restriction_digest_fragment_count "AACTGCAGTT".toList "CTGCAG".toList 5
    ["GAACTGCA".toList, "GTTCTGCA".toList] (by decide) (by decide) (by decide)

/-- C9: the digest is invertible — dropping the artificial overhangs
(the first `length recognition - cut` characters and the last `cut` characters)
from every fragment and joining with the recognition site as separator recovers
the input sequence exactly. -/
theorem restriction_digest_roundtrip (sequence recognition : List Char) (cut : Nat)
    (frags : List (List Char))
    (hrec : recognition ≠ []) (hcut : cut ≤ recognition.length)
    (hdig : restriction_digest sequence recognition cut = some frags) :
    pyJoin recognition (frags.map fun f =>
      (f.drop (recognition.length - cut)).take
        ((f.drop (recognition.length - cut)).length - cut)) = sequence := by
  have hfr : frags = (pySplit recognition sequence).map
      (fun piece => recognition.drop cut ++ piece ++ recognition.take cut) := by
    rw [restriction_digest, if_neg hrec] at hdig
    exact (Option.some.inj hdig).symm
  rw [hfr, List.map_map]
  have htrim : ∀ piece ∈ pySplit recognition sequence,
      ((fun f => (f.drop (recognition.length - cut)).take
          ((f.drop (recognition.length - cut)).length - cut)) ∘
        fun piece => recognition.drop cut ++ piece ++ recognition.take cut) piece
        = id piece := by
    intro piece _
    show ((recognition.drop cut ++ piece ++ recognition.take cut).drop
        (recognition.length - cut)).take _ = piece
    have hassoc : recognition.drop cut ++ piece ++ recognition.take cut
        = recognition.drop cut ++ (piece ++ recognition.take cut) := by
      simp [List.append_assoc]
    have hd : (recognition.drop cut ++ piece ++ recognition.take cut).drop
        (recognition.length - cut) = piece ++ recognition.take cut := by
      rw [hassoc]
      exact drop_of_append _ _ _ (by simp [List.length_drop])
    rw [hd]
    have hlen : (piece ++ recognition.take cut).length - cut = piece.length := by
      simp [List.length_append, List.length_take]
      omega
    rw [hlen]
    exact take_of_append _ _ _ rfl
  rw [List.map_eq_map_iff.mpr htrim, List.map_id]
  exact pyJoin_pySplitF recognition hrec sequence.length sequence le_rfl

theorem restriction_digest_roundtrip_witness :
    pyJoin "CTGCAG".toList
      ((["GAACTGCA".toList, "GTTCTGCA".toList] : List (List Char)).map fun f =>
        (f.drop ("CTGCAG".toList.length - 5)).take
          ((f.drop ("CTGCAG".toList.length - 5)).length - 5)) = "AACTGCAGTT".toList :=
  restriction_digest_roundtrip "AACTGCAGTT".toList "CTGCAG".toList 5
    ["GAACTGCA".toList, "GTTCTGCA".toList] (by decide) (by decide) (by decide)

/-- C4: shearing loses, duplicates and reorders no characters: the output is,
for each input fragment in order, one or more contiguous pieces whose in-order
concatenation equals that fragment exactly. -/
theorem shear_concat_exact (fragments : List (List Char)) (size : Nat) (f : List Char)
    (_hs : 1 ≤ size) :
    shear_DNA_to_size_select fragments size
        = (fragments.map fun g => shearFrag g size).flatten
    ∧ shearFrag f size ≠ [] ∧ (shearFrag f size).flatten = f := by
  obtain ⟨hj, hne⟩ := shearFrag_flatten f size
  exact ⟨rfl, hne, hj⟩

theorem shear_concat_exact_witness :
    shear_DNA_to_size_select [['A', 'C', 'G']] 1
        = ([['A', 'C', 'G']].map fun g => shearFrag g 1).flatten
    ∧ shearFrag ['A', 'C', 'G'] 1 ≠ [] ∧ (shearFrag ['A', 'C', 'G'] 1).flatten = ['A', 'C', 'G'] :=
  shear_concat_exact [['A', 'C', 'G']] 1 ['A', 'C', 'G'] (by decide)

/-- C10: shearing does not bound pieces by the requested size: a fragment
shorter than `2 * size` is emitted unchanged as a single piece (the breakpoint
count is clamped to 2), and a fragment of length 1000 with size 300 yields two
pieces of length 500. -/
theorem shear_no_size_bound (f g : List Char) (size : Nat)
    (hs : 1 ≤ size) (hshort : f.length < 2 * size) (hg : g.length = 1000) :
    shear_DNA_to_size_select [f] size = [f]
    ∧ (shear_DNA_to_size_select [g] 300).map List.length = [500, 500] := by
  constructor
  · have h1 : shear_DNA_to_size_select [f] size = shearFrag f size := by
      simp [shear_DNA_to_size_select]
    have hdiv : f.length / size < 2 :=
      (Nat.div_lt_iff_lt_mul (by omega : 0 < size)).mpr (by omega)
    have hmax : max 2 (f.length / size) = 2 := by omega
    rw [h1]
    unfold shearFrag
    rw [hmax]
    have hls : linspaceInt f.length 2 = [0, f.length] := by
      have hr : List.range 2 = [0, 1] := rfl
      rw [linspaceInt, hr]
      simp
    rw [hls]
    show sliceChunks f 0 [f.length] = [f]
    show [(f.drop 0).take (f.length - 0)] = [f]
    simp
  · have h2 : shear_DNA_to_size_select [g] 300 = shearFrag g 300 := by
      simp [shear_DNA_to_size_select]
    rw [h2]
    unfold shearFrag
    rw [hg]
    have hmax2 : max 2 (1000 / 300) = 3 := by decide
    rw [hmax2]
    have hls2 : linspaceInt 1000 3 = [0, 500, 1000] := by decide
    rw [hls2]
    show ((g.drop 0).take (500 - 0) :: (g.drop 500).take (1000 - 500) :: []).map
        List.length = [500, 500]
    rw [List.map_cons, List.map_cons, List.map_nil]
    rw [List.length_take, List.length_take, List.length_drop, List.length_drop, hg]
    decide

theorem shear_no_size_bound_witness :
    shear_DNA_to_size_select [['A', 'C', 'G']] 2 = [['A', 'C', 'G']]
    ∧ (shear_DNA_to_size_select [List.replicate 1000 'A'] 300).map List.length
        = [500, 500] :=
  shear_no_size_bound ['A', 'C', 'G'] (List.replicate 1000 'A') 2 (by decide) (by decide)
    (by rw [List.length_replicate])

/-- C2: `PCR` returns, in input order and with at most one library entry per
input fragment, exactly the fragments that begin with the reverse complement of
adapter 1 and end with adapter 2 (kept verbatim) together with the reverse
complements of those that begin with the reverse complement of adapter 2 and
end with adapter 1; consequently every library entry begins with the reverse
complement of adapter 1 and ends with adapter 2. -/
theorem PCR_spec (fragments : List (List Char)) :
    PCR fragments = (fragments.map pcrSelect).flatten
    ∧ (∀ f : List Char, (pcrSelect f).length ≤ 1)
    ∧ ∀ x ∈ PCR fragments,
        x.take 33 = revcomp ILLUMINA_ADAPTER_1
        ∧ x.drop (x.length - 33) = ILLUMINA_ADAPTER_2 := by
  have e12 : ¬ revcomp ILLUMINA_ADAPTER_1 = revcomp ILLUMINA_ADAPTER_2 := by decide
  have e21 : ¬ revcomp ILLUMINA_ADAPTER_2 = revcomp ILLUMINA_ADAPTER_1 := by decide
  have a12 : ¬ ILLUMINA_ADAPTER_1 = ILLUMINA_ADAPTER_2 := by decide
  have a21 : ¬ ILLUMINA_ADAPTER_2 = ILLUMINA_ADAPTER_1 := by decide
  have hsel : ∀ frag : List Char,
      (if frag.take 33 = revcomp ILLUMINA_ADAPTER_1 then
        if frag.drop (frag.length - 33) = ILLUMINA_ADAPTER_2 then [frag] else []
       else [])
      ++ (if frag.take 33 = revcomp ILLUMINA_ADAPTER_2 then
        if frag.drop (frag.length - 33) = ILLUMINA_ADAPTER_1 then [revcomp frag] else []
       else [])
      = pcrSelect frag := by
    intro frag
    unfold pcrSelect
    by_cases h1 : frag.take 33 = revcomp ILLUMINA_ADAPTER_1 <;>
      by_cases h2 : frag.drop (frag.length - 33) = ILLUMINA_ADAPTER_2 <;>
      by_cases h3 : frag.take 33 = revcomp ILLUMINA_ADAPTER_2 <;>
      by_cases h4 : frag.drop (frag.length - 33) = ILLUMINA_ADAPTER_1 <;>
      simp [h1, h2, h3, h4, e12, e21, a12, a21]
  have hmain : PCR fragments = (fragments.map pcrSelect).flatten := by
    unfold PCR
    congr 1
    exact List.map_eq_map_iff.mpr fun f _ => hsel f
  refine ⟨hmain, ?_, ?_⟩
  · intro f
    unfold pcrSelect
    by_cases h1 : f.take 33 = revcomp ILLUMINA_ADAPTER_1
    · by_cases h3 : f.take 33 = revcomp ILLUMINA_ADAPTER_2
      · exact absurd (h1.symm.trans h3) e12
      · by_cases h2 : f.drop (f.length - 33) = ILLUMINA_ADAPTER_2 <;>
          simp [h1, h2, h3, e12, e21, a12, a21]
    · by_cases h3 : f.take 33 = revcomp ILLUMINA_ADAPTER_2
      · by_cases h4 : f.drop (f.length - 33) = ILLUMINA_ADAPTER_1 <;>
          simp [h1, h3, h4, e12, e21, a12, a21]
      · simp [h1, h3]
  · intro x hx
    rw [hmain] at hx
    obtain ⟨l, hl, hxl⟩ := List.mem_flatten.mp hx
    obtain ⟨f, _, rfl⟩ := List.mem_map.mp hl
    unfold pcrSelect at hxl
    rw [List.mem_append] at hxl
    cases hxl with
    | inl hmem =>
        by_cases hc : f.take 33 = revcomp ILLUMINA_ADAPTER_1 ∧
            f.drop (f.length - 33) = ILLUMINA_ADAPTER_2
        · rw [if_pos hc] at hmem
          obtain rfl : x = f := List.eq_of_mem_singleton hmem
          exact hc
        · rw [if_neg hc] at hmem
          simp at hmem
    | inr hmem =>
        by_cases hc : f.take 33 = revcomp ILLUMINA_ADAPTER_2 ∧
            f.drop (f.length - 33) = ILLUMINA_ADAPTER_1
        · rw [if_pos hc] at hmem
          obtain rfl : x = revcomp f := List.eq_of_mem_singleton hmem
          obtain ⟨hstart, hend⟩ := hc
          constructor
          · have hsplit : f = f.take (f.length - 33) ++ ILLUMINA_ADAPTER_1 := by
              conv_lhs => rw [← List.take_append_drop (f.length - 33) f]
              rw [hend]
            have hr : revcomp f
                = revcomp ILLUMINA_ADAPTER_1 ++ revcomp (f.take (f.length - 33)) := by
              conv_lhs => rw [hsplit]
              rw [revcomp_append]
            rw [hr]
            exact take_of_append _ _ _ (by rw [revcomp_length]; decide)
          · have hf33 : 33 ≤ f.length := by
              have hlen := congrArg List.length hstart
              rw [List.length_take, revcomp_length] at hlen
              have hA2 : ILLUMINA_ADAPTER_2.length = 33 := by decide
              rw [hA2] at hlen
              omega
            have hsplit : f = revcomp ILLUMINA_ADAPTER_2 ++ f.drop 33 := by
              conv_lhs => rw [← List.take_append_drop 33 f]
              rw [hstart]
            have hr : revcomp f = revcomp (f.drop 33) ++ ILLUMINA_ADAPTER_2 := by
              conv_lhs => rw [hsplit]
              rw [revcomp_append,
                show revcomp (revcomp ILLUMINA_ADAPTER_2) = ILLUMINA_ADAPTER_2 from by
                  decide]
            rw [hr]
            exact drop_tail_of_append _ _ _ (by decide)
        · rw [if_neg hc] at hmem
          simp at hmem

theorem PCR_spec_witness :
    (revcomp ILLUMINA_ADAPTER_1 ++ ILLUMINA_ADAPTER_2).take 33
        = revcomp ILLUMINA_ADAPTER_1
    ∧ (revcomp ILLUMINA_ADAPTER_1 ++ ILLUMINA_ADAPTER_2).drop
        ((revcomp ILLUMINA_ADAPTER_1 ++ ILLUMINA_ADAPTER_2).length - 33)
        = ILLUMINA_ADAPTER_2 :=
  (PCR_spec [revcomp ILLUMINA_ADAPTER_1 ++ ILLUMINA_ADAPTER_2]).2.2
    (revcomp ILLUMINA_ADAPTER_1 ++ ILLUMINA_ADAPTER_2) (by decide)

/-- Slice structure of one ligated molecule
`revcomp adapter1 ++ revcomp barcode ++ "TGCA" ++ ("G" ++ piece ++ "CTGCA") ++ barcode ++ adapter1`:
the "TGCA" contributed by the adapter and the leading "G" of the fragment
together spell the reverse complement "TGCAG" of the overhang "CTGCA". -/
theorem ligate_molecule_slices (piece barcode m : List Char) (hbc : barcode.length = 6)
    (hm : m = (revcomp ILLUMINA_ADAPTER_1 ++ revcomp barcode ++ ['T', 'G', 'C', 'A'])
        ++ (['G'] ++ piece ++ ['C', 'T', 'G', 'C', 'A'])
        ++ (barcode ++ ILLUMINA_ADAPTER_1)) :
    m.take 33 = revcomp ILLUMINA_ADAPTER_1
    ∧ (m.drop 33).take 6 = revcomp barcode
    ∧ (m.drop 39).take 5 = ['T', 'G', 'C', 'A', 'G']
    ∧ (m.drop (m.length - 44)).take 5 = ['C', 'T', 'G', 'C', 'A']
    ∧ (m.drop (m.length - 39)).take 6 = barcode
    ∧ m.drop (m.length - 33) = ILLUMINA_ADAPTER_1 := by
  subst hm
  have hA : (revcomp ILLUMINA_ADAPTER_1).length = 33 := by decide
  have hB : (revcomp barcode).length = 6 := by rw [revcomp_length, hbc]
  have hA1 : ILLUMINA_ADAPTER_1.length = 33 := by decide
  have h12 : (revcomp ILLUMINA_ADAPTER_1 ++ revcomp barcode ++ ['T', 'G', 'C', 'A'])
        ++ (['G'] ++ piece ++ ['C', 'T', 'G', 'C', 'A'])
        ++ (barcode ++ ILLUMINA_ADAPTER_1)
      = revcomp ILLUMINA_ADAPTER_1 ++ (revcomp barcode ++ (['T', 'G', 'C', 'A']
        ++ (['G'] ++ piece ++ (['C', 'T', 'G', 'C', 'A']
        ++ (barcode ++ ILLUMINA_ADAPTER_1))))) := by
    simp [List.append_assoc]
  refine ⟨?_, ?_, ?_, ?_, ?_, ?_⟩
  · rw [h12]
    exact take_of_append _ _ _ hA
  · rw [h12, drop_of_append _ _ 33 hA]
    exact take_of_append _ _ _ hB
  · have h3 : (revcomp ILLUMINA_ADAPTER_1 ++ revcomp barcode ++ ['T', 'G', 'C', 'A'])
          ++ (['G'] ++ piece ++ ['C', 'T', 'G', 'C', 'A'])
          ++ (barcode ++ ILLUMINA_ADAPTER_1)
        = (revcomp ILLUMINA_ADAPTER_1 ++ revcomp barcode)
          ++ (['T', 'G', 'C', 'A', 'G'] ++ (piece ++ (['C', 'T', 'G', 'C', 'A']
          ++ (barcode ++ ILLUMINA_ADAPTER_1)))) := by
      simp [List.append_assoc]
    rw [h3, drop_of_append _ _ 39 (by rw [List.length_append, hA, hB])]
    exact take_of_append _ _ _ rfl
  · have h4 : (revcomp ILLUMINA_ADAPTER_1 ++ revcomp barcode ++ ['T', 'G', 'C', 'A'])
          ++ (['G'] ++ piece ++ ['C', 'T', 'G', 'C', 'A'])
          ++ (barcode ++ ILLUMINA_ADAPTER_1)
        = (revcomp ILLUMINA_ADAPTER_1 ++ revcomp barcode
            ++ (['T', 'G', 'C', 'A', 'G'] ++ piece))
          ++ (['C', 'T', 'G', 'C', 'A'] ++ (barcode ++ ILLUMINA_ADAPTER_1)) := by
      simp [List.append_assoc]
    have hy4 : (['C', 'T', 'G', 'C', 'A']
        ++ (barcode ++ ILLUMINA_ADAPTER_1) : List Char).length = 44 := by
      simp [List.length_append, hbc, hA1]
    rw [h4, drop_tail_of_append _ _ 44 hy4]
    exact take_of_append _ _ _ rfl
  · have h5 : (revcomp ILLUMINA_ADAPTER_1 ++ revcomp barcode ++ ['T', 'G', 'C', 'A'])
          ++ (['G'] ++ piece ++ ['C', 'T', 'G', 'C', 'A'])
          ++ (barcode ++ ILLUMINA_ADAPTER_1)
        = (revcomp ILLUMINA_ADAPTER_1 ++ revcomp barcode
            ++ (['T', 'G', 'C', 'A', 'G'] ++ (piece ++ ['C', 'T', 'G', 'C', 'A'])))
          ++ (barcode ++ ILLUMINA_ADAPTER_1) := by
      simp [List.append_assoc]
    have hy5 : ((barcode ++ ILLUMINA_ADAPTER_1 : List Char)).length = 39 := by
      simp [List.length_append, hbc, hA1]
    rw [h5, drop_tail_of_append _ _ 39 hy5]
    exact take_of_append _ _ _ hbc
  · have h6 : (revcomp ILLUMINA_ADAPTER_1 ++ revcomp barcode ++ ['T', 'G', 'C', 'A'])
          ++ (['G'] ++ piece ++ ['C', 'T', 'G', 'C', 'A'])
          ++ (barcode ++ ILLUMINA_ADAPTER_1)
        = (revcomp ILLUMINA_ADAPTER_1 ++ revcomp barcode
            ++ (['T', 'G', 'C', 'A', 'G'] ++ (piece ++ (['C', 'T', 'G', 'C', 'A']
            ++ barcode)))) ++ ILLUMINA_ADAPTER_1 := by
      simp [List.append_assoc]
    rw [h6, drop_tail_of_append _ _ 33 hA1]

/-- C1: every molecule produced by ligating barcoded adapters onto a
CTGCAG/cut-5 digest has the claimed layout: reverse-complemented adapter 1,
reverse-complemented barcode, reverse-complemented overhang "CTGCA" at the
start, and the overhang "CTGCA", the barcode and adapter 1 at the end. -/
theorem ligate_barcoded_adapters_structure (sequence : List Char)
    (frags : List (List Char)) (barcode : List Char)
    (hdig : restriction_digest sequence "CTGCAG".toList 5 = some frags)
    (hbc : barcode.length = 6) :
    ∀ m ∈ ligate_barcoded_adapters frags "CTGCAG".toList 5 barcode,
      m.take 33 = revcomp ILLUMINA_ADAPTER_1
      ∧ (m.drop 33).take 6 = revcomp barcode
      ∧ (m.drop 39).take 5 = revcomp "CTGCA".toList
      ∧ (m.drop (m.length - 44)).take 5 = "CTGCA".toList
      ∧ (m.drop (m.length - 39)).take 6 = barcode
      ∧ m.drop (m.length - 33) = ILLUMINA_ADAPTER_1 := by
  have hfr : frags = (pySplit "CTGCAG".toList sequence).map
      (fun piece => "CTGCAG".toList.drop 5 ++ piece ++ "CTGCAG".toList.take 5) := by
    rw [restriction_digest, if_neg (by decide)] at hdig
    exact (Option.some.inj hdig).symm
  subst hfr
  intro m hm
  unfold ligate_barcoded_adapters at hm
  rw [List.map_map] at hm
  obtain ⟨piece, _, rfl⟩ := List.mem_map.mp hm
  exact ligate_molecule_slices piece barcode _ hbc rfl

theorem ligate_barcoded_adapters_structure_witness :
    ((ligate_barcoded_adapters ["GAACTGCA".toList, "GTTCTGCA".toList]
        "CTGCAG".toList 5 "AATTCC".toList).headD []).take 33
      = revcomp ILLUMINA_ADAPTER_1
    ∧ (((ligate_barcoded_adapters ["GAACTGCA".toList, "GTTCTGCA".toList]
        "CTGCAG".toList 5 "AATTCC".toList).headD []).drop 33).take 6
      = revcomp "AATTCC".toList
    ∧ (((ligate_barcoded_adapters ["GAACTGCA".toList, "GTTCTGCA".toList]
        "CTGCAG".toList 5 "AATTCC".toList).headD []).drop 39).take 5
      = revcomp "CTGCA".toList
    ∧ (((ligate_barcoded_adapters ["GAACTGCA".toList, "GTTCTGCA".toList]
        "CTGCAG".toList 5 "AATTCC".toList).headD []).drop
          (((ligate_barcoded_adapters ["GAACTGCA".toList, "GTTCTGCA".toList]
            "CTGCAG".toList 5 "AATTCC".toList).headD []).length - 44)).take 5
      = "CTGCA".toList
    ∧ (((ligate_barcoded_adapters ["GAACTGCA".toList, "GTTCTGCA".toList]
        "CTGCAG".toList 5 "AATTCC".toList).headD []).drop
          (((ligate_barcoded_adapters ["GAACTGCA".toList, "GTTCTGCA".toList]
            "CTGCAG".toList 5 "AATTCC".toList).headD []).length - 39)).take 6
      = "AATTCC".toList
    ∧ ((ligate_barcoded_adapters ["GAACTGCA".toList, "GTTCTGCA".toList]
        "CTGCAG".toList 5 "AATTCC".toList).headD []).drop
          (((ligate_barcoded_adapters ["GAACTGCA".toList, "GTTCTGCA".toList]
            "CTGCAG".toList 5 "AATTCC".toList).headD []).length - 33)
      = ILLUMINA_ADAPTER_1 :=
  ligate_barcoded_adapters_structure "AACTGCAGTT".toList
    ["GAACTGCA".toList, "GTTCTGCA".toList] "AATTCC".toList (by decide) (by decide)
    ((ligate_barcoded_adapters ["GAACTGCA".toList, "GTTCTGCA".toList]
        "CTGCAG".toList 5 "AATTCC".toList).headD []) (by decide)

end RadSeq
